import Mathlib

/-!
Shallow embedding of `gstools/covmodel/tools.py` (GSTools covariance-model
utilities) and verification of its natural-language specification.

Python floats are modelled by `ℚ` wherever the code only performs field
arithmetic and comparisons; the infinity-sensitive `default_arg_from_bounds`
is modelled over an explicit extended-value type `PFloat`, and the
transcendental `rad_fac` over `ℝ`.  Python exceptions are modelled with
`Except`.
-/

namespace GSTools

/-- Errors raised by `set_len_anis`:
`indexError` models the `IndexError` from `ls_tmp[0]` on an empty coerced
sequence; `invalidAnisotropy` models the `ValueError` raised by the
validation loop, carrying the full ratio list (`str(out_anis)`). -/
inductive SlaErr where
  | indexError
  | invalidAnisotropy (ratios : List ℚ)
deriving DecidableEq

/-- Decidable equality of `Except` results, so that concrete calls can be
evaluated with `decide`. -/
instance {ε α : Type} [DecidableEq ε] [DecidableEq α] :
    DecidableEq (Except ε α) := fun x y =>
  match x, y with
  | .error a, .error b =>
      if h : a = b then .isTrue (by rw [h])
      else .isFalse fun he => h (Except.error.inj he)
  | .ok a, .ok b =>
      if h : a = b then .isTrue (by rw [h])
      else .isFalse fun he => h (Except.ok.inj he)
  | .error _, .ok _ => .isFalse fun he => Except.noConfusion he
  | .ok _, .error _ => .isFalse fun he => Except.noConfusion he

/-- The multi-entry branch of `set_len_anis`: the truncated sequence
`l0 :: rest` is edge-padded on the right to length `dim`
(`np.pad(ls_tmp, (0, dim - len(ls_tmp)), "edge")` repeats the last value, and
pads by nothing when the length is already `dim`), and
`out_anis[i-1] = ls_tmp[i] / ls_tmp[0]` for `i in range(1, dim)`. -/
def derived_anis (dim : ℕ) (l0 : ℚ) (rest : List ℚ) : List ℚ :=
  (List.range (dim - 1)).map fun i =>
    ((l0 :: rest) ++
      List.replicate (dim - (l0 :: rest).length) (rest.getLastD l0)).getD (i + 1) 0 / l0

/-- `set_len_anis(dim, len_scale, anis)` from `gstools/covmodel/tools.py`.

`len_scale` is the coerced flat float sequence (`np.atleast_1d(np.array(...))`);
`setAnis` is the external collaborator `gstools.tools.geometric.set_anis`,
taken as a parameter since it is outside this module.

Line-by-line: `ls_tmp = np.array(len_scale)[:dim]` is `len_scale.take dim`;
`out_len_scale = ls_tmp[0]` raises `IndexError` on an empty slice;
a one-entry slice delegates to `set_anis(dim, anis)`; otherwise the
ratios are derived as in `derived_anis`; finally every
ratio must satisfy `ani > 0` or a `ValueError` is raised. -/
def set_len_anis (setAnis : ℕ → List ℚ → List ℚ) (dim : ℕ)
    (len_scale anis : List ℚ) : Except SlaErr (ℚ × List ℚ) :=
  match len_scale.take dim with
  | [] => .error .indexError
  | l0 :: rest =>
      let out_anis :=
        if rest.isEmpty then setAnis dim anis
        else derived_anis dim l0 rest
      if out_anis.all fun a => decide (0 < a) then .ok (l0, out_anis)
      else .error (.invalidAnisotropy out_anis)

/-- Reduction of `set_len_anis` when the truncated sequence is empty. -/
theorem set_len_anis_nil (setAnis : ℕ → List ℚ → List ℚ) (dim : ℕ)
    (ls anis : List ℚ) (h : ls.take dim = []) :
    set_len_anis setAnis dim ls anis = .error .indexError := by
  unfold set_len_anis
  rw [h]

/-- Reduction of `set_len_anis` when the truncated sequence is a singleton. -/
theorem set_len_anis_single (setAnis : ℕ → List ℚ → List ℚ) (dim : ℕ)
    (ls anis : List ℚ) (l0 : ℚ) (h : ls.take dim = [l0]) :
    set_len_anis setAnis dim ls anis =
      if (setAnis dim anis).all (fun a => decide (0 < a)) then
        .ok (l0, setAnis dim anis)
      else .error (.invalidAnisotropy (setAnis dim anis)) := by
  unfold set_len_anis
  rw [h]
  all_goals rfl

/-- Reduction of `set_len_anis` when the truncated sequence has at least two
entries. -/
theorem set_len_anis_multi (setAnis : ℕ → List ℚ → List ℚ) (dim : ℕ)
    (ls anis : List ℚ) (l0 l1 : ℚ) (tl : List ℚ)
    (h : ls.take dim = l0 :: l1 :: tl) :
    set_len_anis setAnis dim ls anis =
      if (derived_anis dim l0 (l1 :: tl)).all (fun a => decide (0 < a)) then
        .ok (l0, derived_anis dim l0 (l1 :: tl))
      else .error (.invalidAnisotropy (derived_anis dim l0 (l1 :: tl))) := by
  unfold set_len_anis
  rw [h]
  all_goals rfl

/-- If the `dim`-truncation of `ls` starts with `l0`, then `l0` is the head of
`ls`. -/
theorem headD_of_take_cons (ls : List ℚ) (dim : ℕ) (l0 : ℚ) (tl : List ℚ)
    (h : ls.take dim = l0 :: tl) : ls.headD 0 = l0 := by
  cases ls with
  | nil => simp at h
  | cons a as =>
    cases dim with
    | zero => simp at h
    | succ d =>
      rw [List.take_succ_cons] at h
      simp only [List.cons.injEq] at h
      simp [h.1]

/-- Evaluate `getD` on a mapped range at an in-range index. -/
theorem getD_map_range (n i : ℕ) (f : ℕ → ℚ) (h : i < n) :
    (((List.range n).map f).getD i 0) = f i := by
  rw [List.getD_eq_getElem?_getD, List.getElem?_map, List.getElem?_range h]
  rfl

theorem derived_anis_length (dim : ℕ) (l0 : ℚ) (rest : List ℚ) :
    (derived_anis dim l0 rest).length = dim - 1 := by
  simp [derived_anis]

theorem derived_anis_getD (dim : ℕ) (l0 : ℚ) (rest : List ℚ) (i : ℕ)
    (h : i < dim - 1) :
    (derived_anis dim l0 rest).getD i 0 =
      ((l0 :: rest) ++
        List.replicate (dim - (l0 :: rest).length) (rest.getLastD l0)).getD (i + 1) 0 / l0 := by
  unfold derived_anis
  exact getD_map_range _ i _ h

/-- An `ok` result of the final validation `if` forces the condition to hold
and determines the returned pair. -/
theorem ok_of_validate {c : Prop} [Decidable c] {l0 : ℚ} {out : List ℚ}
    {p : ℚ × List ℚ}
    (h : (if c then Except.ok (l0, out) else
            Except.error (SlaErr.invalidAnisotropy out)) = Except.ok p) :
    p = (l0, out) := by
  split at h
  · exact (Except.ok.inj h).symm
  · exact absurd h (by simp)

/-- C1: for `dim ≥ 1` and a coerced `len_scale` keeping at least two entries
after truncation to `dim` entries, `set_len_anis` is unaffected by the `anis`
argument, and a normal return carries the first entry of `len_scale` as the
primary length scale together with `dim - 1` anisotropy ratios
`padded[i+1] / len_scale[0]`, where `padded` is the truncated sequence
edge-padded on the right to length `dim` by repeating its last value. -/
theorem set_len_anis_c1 (setAnis : ℕ → List ℚ → List ℚ) (dim : ℕ)
    (ls anis : List ℚ) (_hdim : 1 ≤ dim) (hlen : 2 ≤ (ls.take dim).length) :
    (∀ anis' : List ℚ,
      set_len_anis setAnis dim ls anis' = set_len_anis setAnis dim ls anis) ∧
    ∀ p : ℚ × List ℚ, set_len_anis setAnis dim ls anis = .ok p →
      p.1 = ls.headD 0 ∧ p.2.length = dim - 1 ∧
      ∀ i, i < dim - 1 →
        p.2.getD i 0 =
          (ls.take dim ++
            List.replicate (dim - (ls.take dim).length)
              ((ls.take dim).getLastD 0)).getD (i + 1) 0 / ls.headD 0 := by
  rcases e : ls.take dim with _ | ⟨l0, _ | ⟨l1, tl⟩⟩
  · rw [e] at hlen; simp at hlen
  · rw [e] at hlen; simp at hlen
  · have hhead := headD_of_take_cons ls dim l0 (l1 :: tl) e
    refine ⟨fun anis' => ?_, fun p hp => ?_⟩
    · rw [set_len_anis_multi setAnis dim ls anis' l0 l1 tl e,
        set_len_anis_multi setAnis dim ls anis l0 l1 tl e]
    · rw [set_len_anis_multi setAnis dim ls anis l0 l1 tl e] at hp
      obtain rfl := ok_of_validate hp
      refine ⟨hhead.symm, derived_anis_length dim l0 (l1 :: tl), fun i hi => ?_⟩
      rw [derived_anis_getD dim l0 (l1 :: tl) i hi, hhead]
      simp only [List.getLastD_cons]

/-- Witness for C1 at `dim = 3`, `len_scale = [2, 4]`: the result is
`(2, [2, 2])` (edge-padded to `[2, 4, 4]`) independently of `anis`. -/
theorem set_len_anis_c1_witness :
    set_len_anis (fun _ _ => ([] : List ℚ)) 3 [2, 4] [9] =
      set_len_anis (fun _ _ => ([] : List ℚ)) 3 [2, 4] [5] ∧
    ((2 : ℚ), ([2, 2] : List ℚ)).1 = ([2, 4] : List ℚ).headD 0 :=
  ⟨(set_len_anis_c1 (fun _ _ => []) 3 [2, 4] [5] (by decide) (by decide)).1 [9],
   ((set_len_anis_c1 (fun _ _ => []) 3 [2, 4] [5] (by decide) (by decide)).2
      ((2 : ℚ), [2, 2])
      (by norm_num [set_len_anis, derived_anis, List.range_succ])).1⟩

/-- C2: when the truncated `len_scale` has exactly one entry, a normal return
carries that entry as the primary length scale and exactly `set_anis dim anis`
as the ratio list, and the whole result depends on `len_scale` only through
its first entry. -/
theorem set_len_anis_c2 (setAnis : ℕ → List ℚ → List ℚ) (dim : ℕ)
    (ls anis : List ℚ) (_hdim : 1 ≤ dim) (hlen : (ls.take dim).length = 1) :
    (∀ p : ℚ × List ℚ, set_len_anis setAnis dim ls anis = .ok p →
      p.1 = ls.headD 0 ∧ p.2 = setAnis dim anis) ∧
    ∀ ls' : List ℚ, (ls'.take dim).length = 1 → ls'.headD 0 = ls.headD 0 →
      set_len_anis setAnis dim ls' anis = set_len_anis setAnis dim ls anis := by
  rcases e : ls.take dim with _ | ⟨l0, _ | ⟨l1, tl⟩⟩
  · rw [e] at hlen; simp at hlen
  · have hhead := headD_of_take_cons ls dim l0 [] e
    refine ⟨fun p hp => ?_, fun ls' hlen' hhead' => ?_⟩
    · rw [set_len_anis_single setAnis dim ls anis l0 e] at hp
      split at hp
      · obtain rfl := Except.ok.inj hp
        exact ⟨hhead.symm, rfl⟩
      · exact absurd hp (by simp)
    · rcases e' : ls'.take dim with _ | ⟨l0', _ | ⟨l1', tl'⟩⟩
      · rw [e'] at hlen'; simp at hlen'
      · have hhead'' := headD_of_take_cons ls' dim l0' [] e'
        have : l0' = l0 := by rw [← hhead'', hhead', hhead]
        rw [set_len_anis_single setAnis dim ls' anis l0' e',
          set_len_anis_single setAnis dim ls anis l0 e, this]
      · rw [e'] at hlen'; simp at hlen'
  · rw [e] at hlen; simp at hlen

/-- Witness for C2 at `dim = 1`, `len_scale = [5, 7]` (truncated to `[5]`),
`set_anis := fun _ a => a`, `anis = [2]`: result `(5, [2])`, and the entry `7`
beyond the first plays no role. -/
theorem set_len_anis_c2_witness :
    ((5 : ℚ), ([2] : List ℚ)).1 = ([5, 7] : List ℚ).headD 0 ∧
    set_len_anis (fun _ a => a) 1 [5] [2] =
      set_len_anis (fun _ a => a) 1 [5, 7] [2] :=
  ⟨((set_len_anis_c2 (fun _ a => a) 1 [5, 7] [2] (by decide) (by decide)).1
      ((5 : ℚ), [2]) (by decide)).1,
   (set_len_anis_c2 (fun _ a => a) 1 [5, 7] [2] (by decide) (by decide)).2
      [5] (by decide) (by decide)⟩

/-- C3 counterexample: with an empty coerced `len_scale`, `set_len_anis`
raises `IndexError` (from `ls_tmp[0]`): it neither raises the
invalid-anisotropy error nor returns normally, although no computed
anisotropy ratio is nonpositive. -/
theorem set_len_anis_c3_counterexample :
    set_len_anis (fun _ _ => ([] : List ℚ)) 1 [] [] =
      .error .indexError := by
  decide

/-- C3 (amended): whenever the truncated `len_scale` is nonempty, the call
either returns normally with every carried anisotropy ratio strictly
positive, or raises the invalid-anisotropy error carrying the computed ratio
list, some entry of which is not strictly positive. -/
theorem set_len_anis_c3_amended (setAnis : ℕ → List ℚ → List ℚ) (dim : ℕ)
    (ls anis : List ℚ) (h : ls.take dim ≠ []) :
    (∃ p : ℚ × List ℚ, set_len_anis setAnis dim ls anis = .ok p ∧
      ∀ a ∈ p.2, 0 < a) ∨
    (∃ r : List ℚ,
      set_len_anis setAnis dim ls anis = .error (.invalidAnisotropy r) ∧
      ∃ a ∈ r, ¬ 0 < a) := by
  rcases e : ls.take dim with _ | ⟨l0, _ | ⟨l1, tl⟩⟩
  · exact absurd e h
  · rw [set_len_anis_single setAnis dim ls anis l0 e]
    by_cases hall : ((setAnis dim anis).all fun a => decide (0 < a)) = true
    · rw [if_pos hall]
      exact Or.inl ⟨(l0, setAnis dim anis), rfl, by simpa using hall⟩
    · rw [if_neg hall]
      refine Or.inr ⟨setAnis dim anis, rfl, ?_⟩
      simpa using hall
  · rw [set_len_anis_multi setAnis dim ls anis l0 l1 tl e]
    by_cases hall : ((derived_anis dim l0 (l1 :: tl)).all fun a => decide (0 < a)) = true
    · rw [if_pos hall]
      exact Or.inl ⟨(l0, derived_anis dim l0 (l1 :: tl)), rfl, by simpa using hall⟩
    · rw [if_neg hall]
      refine Or.inr ⟨derived_anis dim l0 (l1 :: tl), rfl, ?_⟩
      simpa using hall

/-- Witness for the amended C3 at the spec's example
`set_len_anis(2, [1.0, -3.0], ...)`: the nonempty-input dichotomy applies (and
in fact the invalid-anisotropy branch is taken, with ratio list `[-3]`). -/
theorem set_len_anis_c3_amended_witness :
    ((∃ p : ℚ × List ℚ,
        set_len_anis (fun _ _ => ([] : List ℚ)) 2 [1, -3] [] = .ok p ∧
        ∀ a ∈ p.2, 0 < a) ∨
      (∃ r : List ℚ,
        set_len_anis (fun _ _ => ([] : List ℚ)) 2 [1, -3] [] =
          .error (.invalidAnisotropy r) ∧
        ∃ a ∈ r, ¬ 0 < a)) ∧
    set_len_anis (fun _ _ => ([] : List ℚ)) 2 [1, -3] [] =
      .error (.invalidAnisotropy [-3]) :=
  ⟨set_len_anis_c3_amended (fun _ _ => []) 2 [1, -3] [] (by decide),
   by norm_num [set_len_anis, derived_anis, List.range_succ]⟩

/-! ## `check_bounds` -/

/-- A Python value appearing in a bounds sequence: a float (modelled by `ℚ`)
or a string. -/
inductive PyVal where
  | num (q : ℚ)
  | str (s : String)
deriving DecidableEq

/-- `TypeError`, raised by Python 3 when `<=` compares a number with a
string. -/
inductive CbErr where
  | typeError
deriving DecidableEq

/-- Python string `<=`: code-point lexicographic comparison. -/
def charsLe : List Char → List Char → Bool
  | [], _ => true
  | _ :: _, [] => false
  | x :: xs, y :: ys => if x = y then charsLe xs ys else decide (x < y)

/-- Python `x <= y` on bound entries: numbers compare numerically, strings
lexicographically, and a number/string comparison raises `TypeError`. -/
def pyLe : PyVal → PyVal → Except CbErr Bool
  | .num a, .num b => .ok (decide (a ≤ b))
  | .str a, .str b => .ok (charsLe a.data b.data)
  | _, _ => .error .typeError

/-- Python `bounds[2] in ("oo", "oc", "co", "cc")`: a non-string third
element is simply not a member. -/
def isIntervalTag : PyVal → Bool
  | .str t => t == "oo" || t == "oc" || t == "co" || t == "cc"
  | .num _ => false

/-- `check_bounds(bounds)` from `gstools/covmodel/tools.py`.

`if len(bounds) not in (2, 3): return False`; then
`if bounds[1] <= bounds[0]: return False` (a `TypeError` from the comparison
propagates); then `if len(bounds) == 3 and bounds[2] not in (...): return
False`; else `return True`. -/
def check_bounds (bounds : List PyVal) : Except CbErr Bool :=
  if ¬ (bounds.length = 2 ∨ bounds.length = 3) then .ok false
  else
    match pyLe (bounds.getD 1 (.num 0)) (bounds.getD 0 (.num 0)) with
    | .error e => .error e
    | .ok le =>
      if le then .ok false
      else if bounds.length = 3 && ! isIntervalTag (bounds.getD 2 (.num 0)) then .ok false
      else .ok true

/-- Whether two Python values are comparable by `<=` (same kind). -/
def sameKind : PyVal → PyVal → Bool
  | .num _, .num _ => true
  | .str _, .str _ => true
  | _, _ => false

/-- Python `x > y` on bound entries of the same kind; `false` across kinds. -/
def pyGtB : PyVal → PyVal → Bool
  | .num a, .num b => decide (b < a)
  | .str a, .str b => ! charsLe a.data b.data
  | _, _ => false

/-- Within a kind, `x > y` is the negation of `x <= y`. -/
theorem pyGtB_eq_not_le (x y : PyVal) (le : Bool) (h : pyLe x y = .ok le) :
    pyGtB x y = ! le := by
  cases x with
  | num a =>
    cases y with
    | num b =>
      obtain rfl := Except.ok.inj h
      rcases le_or_lt a b with hab | hab
      · simp [pyGtB, hab, not_lt.mpr hab]
      · simp [pyGtB, hab, not_le.mpr hab]
    | str b => exact absurd h (by simp [pyLe])
  | str a =>
    cases y with
    | num b => exact absurd h (by simp [pyLe])
    | str b =>
      obtain rfl := Except.ok.inj h
      simp [pyGtB]

/-- `pyLe` returns normally exactly on same-kind values. -/
theorem pyLe_error_iff (x y : PyVal) :
    pyLe x y = .error .typeError ↔ sameKind x y = false := by
  cases x <;> cases y <;> simp [pyLe, sameKind]

/-- Reduction of `check_bounds` at a bad length. -/
theorem check_bounds_bad_len (bounds : List PyVal)
    (hl : ¬ (bounds.length = 2 ∨ bounds.length = 3)) :
    check_bounds bounds = .ok false := by
  unfold check_bounds
  rw [if_pos hl]

/-- Reduction of `check_bounds` when the comparison raises. -/
theorem check_bounds_mismatch (bounds : List PyVal)
    (hl : bounds.length = 2 ∨ bounds.length = 3)
    (hk : pyLe (bounds.getD 1 (.num 0)) (bounds.getD 0 (.num 0)) =
      .error .typeError) :
    check_bounds bounds = .error .typeError := by
  unfold check_bounds
  rw [if_neg (not_not_intro hl), hk]

/-- Reduction of `check_bounds` when the comparison returns. -/
theorem check_bounds_ok_le (bounds : List PyVal)
    (hl : bounds.length = 2 ∨ bounds.length = 3) (le : Bool)
    (hk : pyLe (bounds.getD 1 (.num 0)) (bounds.getD 0 (.num 0)) = .ok le) :
    check_bounds bounds =
      if le then .ok false
      else if bounds.length = 3 && ! isIntervalTag (bounds.getD 2 (.num 0))
        then .ok false
      else .ok true := by
  unfold check_bounds
  rw [if_neg (not_not_intro hl), hk]

/-- C4 counterexample: on `[0, "x"]` (length 2, entries of mixed type) the
Python comparison `bounds[1] <= bounds[0]` raises `TypeError`; the claim
says any non-true sequence input yields `false` without raising. -/
theorem check_bounds_c4_counterexample :
    check_bounds [PyVal.num 0, PyVal.str "x"] = .error .typeError := by
  decide

/-- C4 (amended): `check_bounds` returns `true` iff the length is 2 or 3,
`bounds[1] > bounds[0]` strictly, and a present third element is one of the
four interval tags; it raises `TypeError` iff the length is 2 or 3 and the
first two entries are of mixed kind (number vs string); in every other case
it returns `false`. -/
theorem check_bounds_c4_amended (bounds : List PyVal) :
    (check_bounds bounds = .ok true ↔
      ((bounds.length = 2 ∨ bounds.length = 3) ∧
        pyGtB (bounds.getD 1 (.num 0)) (bounds.getD 0 (.num 0)) = true ∧
        (bounds.length = 3 → isIntervalTag (bounds.getD 2 (.num 0)) = true))) ∧
    (check_bounds bounds = .error .typeError ↔
      ((bounds.length = 2 ∨ bounds.length = 3) ∧
        sameKind (bounds.getD 1 (.num 0)) (bounds.getD 0 (.num 0)) = false)) ∧
    (check_bounds bounds = .ok true ∨ check_bounds bounds = .ok false ∨
      check_bounds bounds = .error .typeError) := by
  by_cases hl : bounds.length = 2 ∨ bounds.length = 3
  · cases hle : pyLe (bounds.getD 1 (.num 0)) (bounds.getD 0 (.num 0)) with
    | error e =>
      obtain rfl : e = .typeError := by cases e; rfl
      have hk := (pyLe_error_iff _ _).mp hle
      have hcb := check_bounds_mismatch bounds hl hle
      have hgt : pyGtB (bounds.getD 1 (.num 0)) (bounds.getD 0 (.num 0)) = false := by
        revert hk
        cases bounds.getD 1 (.num 0) <;> cases bounds.getD 0 (.num 0) <;>
          simp [sameKind, pyGtB]
      refine ⟨iff_of_false (by rw [hcb]; exact fun h => Except.noConfusion h)
          (fun h => ?_), iff_of_true hcb ⟨hl, hk⟩, Or.inr (Or.inr hcb)⟩
      rw [hgt] at h
      exact Bool.false_ne_true h.2.1
    | ok le =>
      have hk : sameKind (bounds.getD 1 (.num 0)) (bounds.getD 0 (.num 0)) = true := by
        rcases hsk : sameKind (bounds.getD 1 (.num 0)) (bounds.getD 0 (.num 0)) with _ | _
        · rw [(pyLe_error_iff _ _).mpr hsk] at hle
          exact absurd hle (by simp)
        · rfl
      have hnk : ¬ ((bounds.length = 2 ∨ bounds.length = 3) ∧
          sameKind (bounds.getD 1 (.num 0)) (bounds.getD 0 (.num 0)) = false) :=
        fun h => by rw [hk] at h; exact Bool.noConfusion h.2
      have hgt := pyGtB_eq_not_le _ _ le hle
      have hcb := check_bounds_ok_le bounds hl le hle
      cases le with
      | true =>
        rw [if_pos rfl] at hcb
        refine ⟨iff_of_false (by rw [hcb]; simp) (fun h => ?_),
          iff_of_false (by rw [hcb]; simp) hnk, Or.inr (Or.inl hcb)⟩
        rw [hgt] at h
        exact Bool.false_ne_true h.2.1
      | false =>
        rw [if_neg (by simp)] at hcb
        cases hcond : (decide (bounds.length = 3) &&
            ! isIntervalTag (bounds.getD 2 (.num 0))) with
        | true =>
          rw [hcond, if_pos rfl] at hcb
          rw [Bool.and_eq_true] at hcond
          have h3 : bounds.length = 3 := of_decide_eq_true hcond.1
          have htag : isIntervalTag (bounds.getD 2 (.num 0)) = false := by
            rcases ht : isIntervalTag (bounds.getD 2 (.num 0)) with _ | _
            · rfl
            · rw [ht] at hcond
              exact absurd hcond.2 (by simp)
          refine ⟨iff_of_false (by rw [hcb]; simp) (fun h => ?_),
            iff_of_false (by rw [hcb]; simp) hnk, Or.inr (Or.inl hcb)⟩
          rw [h.2.2 h3] at htag
          exact Bool.noConfusion htag
        | false =>
          rw [hcond, if_neg (by simp)] at hcb
          have htag3 : bounds.length = 3 → isIntervalTag (bounds.getD 2 (.num 0)) = true := by
            intro h3
            rcases ht : isIntervalTag (bounds.getD 2 (.num 0)) with _ | _
            · rw [h3, ht] at hcond
              exact absurd hcond (by simp)
            · rfl
          exact ⟨iff_of_true hcb ⟨hl, by rw [hgt]; rfl, htag3⟩,
            iff_of_false (by rw [hcb]; simp) hnk, Or.inl hcb⟩
  · have hcb := check_bounds_bad_len bounds hl
    exact ⟨iff_of_false (by rw [hcb]; simp) (fun h => hl h.1),
      iff_of_false (by rw [hcb]; simp) (fun h => hl h.1),
      Or.inr (Or.inl hcb)⟩

/-- Witness for the amended C4 at the spec's examples: `[0,1]` is accepted,
`[1,0]`, `[0,1,"xx"]` and `[0,1,2,3]` are rejected with `false`. -/
theorem check_bounds_c4_amended_witness :
    check_bounds [PyVal.num 0, PyVal.num 1] = .ok true ∧
    check_bounds [PyVal.num 1, PyVal.num 0] ≠ .ok true ∧
    check_bounds [PyVal.num 0, PyVal.num 1, PyVal.str "xx"] ≠ .ok true ∧
    check_bounds [PyVal.num 0, PyVal.num 1, PyVal.num 2, PyVal.num 3] = .ok false :=
  ⟨(check_bounds_c4_amended [PyVal.num 0, PyVal.num 1]).1.mpr (by decide),
   fun h => by
     have := (check_bounds_c4_amended [PyVal.num 1, PyVal.num 0]).1.mp h
     exact absurd this (by decide),
   fun h => by
     have := (check_bounds_c4_amended [PyVal.num 0, PyVal.num 1, PyVal.str "xx"]).1.mp h
     exact absurd this (by decide),
   by decide⟩

/-! ## `check_arg_in_bounds` -/

/-- A model object: `arg_bounds` maps argument names to bound tuples
`(lower, upper)` or `(lower, upper, interval_type)`; the optional third
component models the tuple length (2 or 3). -/
structure PyModel where
  arg_bounds : List (String × (ℚ × ℚ × Option String))

/-- Errors raised by `check_arg_in_bounds`: `unknownArgument` models the
`ValueError("check bounds: unknown argument: ...")`, `indexError` the
`IndexError` from `bnd[2][0]` / `bnd[2][1]` on a too-short tag string. -/
inductive CabErr where
  | unknownArgument (arg : String)
  | indexError
deriving DecidableEq

/-- Python `s[i]` on a string: the `i`-th character, or `IndexError`. -/
def strIndex (s : String) (i : ℕ) : Except CabErr Char :=
  match s.data.get? i with
  | some c => .ok c
  | none => .error .indexError

/-- The classification part of `check_arg_in_bounds`, acting on the local
copy `bnd` of the stored tuple: `bnd.append("cc")` when the tuple is a pair
(`tag.getD "cc"`); `error_case` starts at 0, the lower check may set it to 1
(closed lower, i.e. `bnd[2][0] == 'c'`, and `val < bnd[0]`) or 2 (open and
`val <= bnd[0]`), and the upper check then overwrites it with 3 (closed
upper and `val > bnd[1]`) or 4 (open and `val >= bnd[1]`); an `IndexError`
from `bnd[2][0]` or `bnd[2][1]` propagates. -/
def cab_result (lo hi : ℚ) (tag : Option String) (val : ℚ) :
    Except CabErr ℕ :=
  match strIndex (tag.getD "cc") 0 with
  | .error e => .error e
  | .ok c0 =>
      let e1 : ℕ :=
        if c0 = 'c' then (if val < lo then 1 else 0)
        else (if val ≤ lo then 2 else 0)
      match strIndex (tag.getD "cc") 1 with
      | .error e => .error e
      | .ok c1 =>
          if c1 = 'c' then (if val > hi then .ok 3 else .ok e1)
          else (if val ≥ hi then .ok 4 else .ok e1)

/-- `check_arg_in_bounds(model, arg, val)` from `gstools/covmodel/tools.py`,
with `val` supplied (the `val=None` attribute-lookup default is outside this
model).

`bnd = list(model.arg_bounds[arg])` copies the stored tuple into a fresh
local list, so the appended default tag never touches the model; the
returned second component is the model state after the call. -/
def check_arg_in_bounds (model : PyModel) (arg : String) (val : ℚ) :
    Except CabErr ℕ × PyModel :=
  match model.arg_bounds.lookup arg with
  | none => (.error (.unknownArgument arg), model)
  | some (lo, hi, tag) => (cab_result lo hi tag val, model)

/-- Reduction of `check_arg_in_bounds` on an unknown argument. -/
theorem check_arg_in_bounds_none (m : PyModel) (arg : String) (val : ℚ)
    (hb : m.arg_bounds.lookup arg = none) :
    check_arg_in_bounds m arg val = (.error (.unknownArgument arg), m) := by
  unfold check_arg_in_bounds
  rw [hb]

/-- Reduction of `check_arg_in_bounds` on a known argument. -/
theorem check_arg_in_bounds_some (m : PyModel) (arg : String) (val lo hi : ℚ)
    (tag : Option String) (hb : m.arg_bounds.lookup arg = some (lo, hi, tag)) :
    check_arg_in_bounds m arg val = (cab_result lo hi tag val, m) := by
  unfold check_arg_in_bounds
  rw [hb]

/-- A string of length at least 2 yields its first two characters. -/
theorem strIndex_of_len (t : String) (h : 2 ≤ t.length) :
    strIndex t 0 = .ok (t.data.getD 0 ' ') ∧
    strIndex t 1 = .ok (t.data.getD 1 ' ') := by
  have hlen : 2 ≤ t.data.length := h
  have h0 : t.data.get? 0 = some (t.data.getD 0 ' ') := by
    rw [List.getD_eq_getElem?_getD, ← List.get?_eq_getElem?]
    cases hg : t.data.get? 0 with
    | none => rw [List.get?_eq_none] at hg; omega
    | some c => rfl
  have h1 : t.data.get? 1 = some (t.data.getD 1 ' ') := by
    rw [List.getD_eq_getElem?_getD, ← List.get?_eq_getElem?]
    cases hg : t.data.get? 1 with
    | none => rw [List.get?_eq_none] at hg; omega
    | some c => rfl
  constructor
  · unfold strIndex
    rw [h0]
  · unfold strIndex
    rw [h1]

/-- Full evaluation of `check_arg_in_bounds` on a known argument whose
(defaulted) interval tag has at least two characters: the result is the
flat classification with the upper checks taking precedence. -/
theorem check_arg_in_bounds_eval (m : PyModel) (arg : String) (val lo hi : ℚ)
    (tag : Option String) (hb : m.arg_bounds.lookup arg = some (lo, hi, tag))
    (hlen : 2 ≤ (tag.getD "cc").length) :
    (check_arg_in_bounds m arg val).1 =
      .ok (if ((tag.getD "cc").data.getD 1 ' ') = 'c' ∧ hi < val then 3
        else if ¬ ((tag.getD "cc").data.getD 1 ' ') = 'c' ∧ hi ≤ val then 4
        else if ((tag.getD "cc").data.getD 0 ' ') = 'c' ∧ val < lo then 1
        else if ¬ ((tag.getD "cc").data.getD 0 ' ') = 'c' ∧ val ≤ lo then 2
        else 0) := by
  obtain ⟨h0, h1⟩ := strIndex_of_len (tag.getD "cc") hlen
  rw [check_arg_in_bounds_some m arg val lo hi tag hb]
  unfold cab_result
  simp only [h0, h1]
  set c0 := (tag.getD "cc").data.getD 0 ' ' with hc0
  set c1 := (tag.getD "cc").data.getD 1 ' ' with hc1
  by_cases e1 : c1 = 'c'
  · by_cases e2 : hi < val
    · simp [e1, e2, gt_iff_lt]
    · by_cases e3 : c0 = 'c'
      · by_cases e4 : val < lo <;>
          simp [e1, e2, e3, e4, not_lt.mp e2, gt_iff_lt]
      · by_cases e4 : val ≤ lo <;>
          simp [e1, e2, e3, e4, not_lt.mp e2, gt_iff_lt]
  · by_cases e2 : hi ≤ val
    · simp [e1, e2, ge_iff_le]
    · by_cases e3 : c0 = 'c'
      · by_cases e4 : val < lo <;>
          simp [e1, e2, e3, e4, not_le.mp e2, le_of_lt (not_le.mp e2), ge_iff_le]
      · by_cases e4 : val ≤ lo <;>
          simp [e1, e2, e3, e4, not_le.mp e2, le_of_lt (not_le.mp e2), ge_iff_le]

/-- Any error returned by `strIndex` is an `IndexError`. -/
theorem strIndex_error_eq (s : String) (i : ℕ) (e : CabErr)
    (h : strIndex s i = .error e) : e = .indexError := by
  unfold strIndex at h
  cases hg : s.data.get? i with
  | none => rw [hg] at h; exact (Except.error.inj h).symm
  | some c => rw [hg] at h; exact absurd h (by simp)

/-- `cab_result` either classifies into `{0, ..., 4}` or raises
`IndexError`. -/
theorem cab_result_cases (lo hi : ℚ) (tag : Option String) (val : ℚ) :
    (∃ r : ℕ, cab_result lo hi tag val = .ok r ∧ r ≤ 4) ∨
    cab_result lo hi tag val = .error .indexError := by
  unfold cab_result
  cases h0 : strIndex (tag.getD "cc") 0 with
  | error e => exact Or.inr (by rw [strIndex_error_eq _ _ _ h0])
  | ok c0 =>
    cases h1 : strIndex (tag.getD "cc") 1 with
    | error e => exact Or.inr (by rw [strIndex_error_eq _ _ _ h1])
    | ok c1 =>
      left
      have he1 : (if c0 = 'c' then (if val < lo then 1 else 0)
          else (if val ≤ lo then 2 else 0) : ℕ) ≤ 4 := by
        split <;> split <;> omega
      by_cases e1 : c1 = 'c'
      · by_cases e2 : val > hi
        · exact ⟨3, by simp [e1, e2], by omega⟩
        · exact ⟨_, by simp [e1, e2], he1⟩
      · by_cases e2 : val ≥ hi
        · exact ⟨4, by simp [e1, e2], by omega⟩
        · exact ⟨_, by simp [e1, e2], he1⟩

/-- C5 counterexample: with malformed stored bounds `(2, 0, "cc")` and
`val = 1`, the lower endpoint is closed and `val < lower` holds, so the
claim's case list demands result 1, but the code returns 3 (the upper check
overwrites the lower one). -/
theorem check_arg_in_bounds_c5_counterexample :
    (check_arg_in_bounds ⟨[("a", (2, 0, some "cc"))]⟩ "a" 1).1 = .ok 3 ∧
    (1 : ℚ) < 2 ∧
    (check_arg_in_bounds ⟨[("a", (2, 0, some "cc"))]⟩ "a" 1).1 ≠ .ok 1 := by
  refine ⟨by decide, by norm_num, by decide⟩

/-- C5 (amended): on a known argument whose bound tuple (with the interval
type defaulting to `cc` when given as a pair) has a tag of at least two
characters, the classification is: 3 when the upper endpoint is closed
(`bnd[2][1] == 'c'`) and `val > upper`; else 4 when the upper endpoint is
open and `val >= upper`; else 1 when the lower endpoint is closed and
`val < lower`; else 2 when the lower endpoint is open and `val <= lower`;
else 0 — the upper checks take precedence over the lower ones when both
would trigger. -/
theorem check_arg_in_bounds_c5_amended (m : PyModel) (arg : String)
    (val lo hi : ℚ) (tag : Option String)
    (hb : m.arg_bounds.lookup arg = some (lo, hi, tag))
    (hlen : 2 ≤ (tag.getD "cc").length) :
    (check_arg_in_bounds m arg val).1 =
      .ok (if ((tag.getD "cc").data.getD 1 ' ') = 'c' ∧ hi < val then 3
        else if ¬ ((tag.getD "cc").data.getD 1 ' ') = 'c' ∧ hi ≤ val then 4
        else if ((tag.getD "cc").data.getD 0 ' ') = 'c' ∧ val < lo then 1
        else if ¬ ((tag.getD "cc").data.getD 0 ' ') = 'c' ∧ val ≤ lo then 2
        else 0) :=
  check_arg_in_bounds_eval m arg val lo hi tag hb hlen

/-- Witness for the amended C5 at the spec's example: bounds `(0, 1, "oo")`
and `val = 0` give case 2 (violates open lower). -/
theorem check_arg_in_bounds_c5_amended_witness :
    (check_arg_in_bounds ⟨[("a", (0, 1, some "oo"))]⟩ "a" 0).1 = .ok 2 := by
  rw [check_arg_in_bounds_c5_amended ⟨[("a", (0, 1, some "oo"))]⟩ "a" 0 0 1
    (some "oo") rfl (by decide)]
  decide

/-- C6: whenever both the lower check and the upper check trigger (possible
only for malformed stored bounds), the returned case is the upper-bound
violation 3 or 4, not the lower-bound one. -/
theorem check_arg_in_bounds_c6 (m : PyModel) (arg : String) (val lo hi : ℚ)
    (tag : Option String) (hb : m.arg_bounds.lookup arg = some (lo, hi, tag))
    (hlen : 2 ≤ (tag.getD "cc").length)
    (_hlow : ((tag.getD "cc").data.getD 0 ' ' = 'c' ∧ val < lo) ∨
      (¬ (tag.getD "cc").data.getD 0 ' ' = 'c' ∧ val ≤ lo))
    (hup : ((tag.getD "cc").data.getD 1 ' ' = 'c' ∧ hi < val) ∨
      (¬ (tag.getD "cc").data.getD 1 ' ' = 'c' ∧ hi ≤ val)) :
    (check_arg_in_bounds m arg val).1 = .ok 3 ∨
    (check_arg_in_bounds m arg val).1 = .ok 4 := by
  rw [check_arg_in_bounds_eval m arg val lo hi tag hb hlen]
  rcases hup with ⟨h1, h2⟩ | ⟨h1, h2⟩
  · rw [if_pos ⟨h1, h2⟩]
    exact Or.inl rfl
  · rw [if_neg (fun hc => h1 hc.1), if_pos ⟨h1, h2⟩]
    exact Or.inr rfl

/-- Witness for C6: malformed bounds `(2, 0, "cc")` with `val = 1` trigger
both checks; the result is the upper case 3. -/
theorem check_arg_in_bounds_c6_witness :
    (check_arg_in_bounds ⟨[("a", (2, 0, some "cc"))]⟩ "a" 1).1 = .ok 3 ∨
    (check_arg_in_bounds ⟨[("a", (2, 0, some "cc"))]⟩ "a" 1).1 = .ok 4 :=
  check_arg_in_bounds_c6 ⟨[("a", (2, 0, some "cc"))]⟩ "a" 1 2 0 (some "cc")
    rfl (by decide) (Or.inl ⟨by decide, by norm_num⟩)
    (Or.inl ⟨by decide, by norm_num⟩)

/-- C7 counterexample: `arg` is a key of `arg_bounds`, yet the call raises
(`IndexError` from `bnd[2][0]` on the empty interval-type string), against
the claim that a known argument never raises. -/
theorem check_arg_in_bounds_c7_counterexample :
    (check_arg_in_bounds ⟨[("a", (0, 1, some ""))]⟩ "a" 0).1 =
      .error .indexError := by
  decide

/-- C7 (amended): `UnknownArgument` is raised iff `arg` is not a key of
`model.arg_bounds`; on a known argument whose (defaulted) interval tag has
at least two characters the call never raises and returns a case in
`{0, 1, 2, 3, 4}` (a shorter tag raises `IndexError` instead). -/
theorem check_arg_in_bounds_c7_amended (m : PyModel) (arg : String)
    (val : ℚ) :
    ((check_arg_in_bounds m arg val).1 = .error (.unknownArgument arg) ↔
      m.arg_bounds.lookup arg = none) ∧
    (∀ lo hi : ℚ, ∀ tag : Option String,
      m.arg_bounds.lookup arg = some (lo, hi, tag) →
      2 ≤ (tag.getD "cc").length →
      ∃ r : ℕ, (check_arg_in_bounds m arg val).1 = .ok r ∧ r ≤ 4) := by
  constructor
  · cases hb : m.arg_bounds.lookup arg with
    | none =>
      rw [check_arg_in_bounds_none m arg val hb]
      exact iff_of_true rfl rfl
    | some b =>
      obtain ⟨lo, hi, tag⟩ := b
      rw [check_arg_in_bounds_some m arg val lo hi tag hb]
      refine iff_of_false (fun hc => ?_) (fun hc => Option.noConfusion hc)
      rcases cab_result_cases lo hi tag val with ⟨r, hr, _⟩ | hr <;>
        rw [hr] at hc
      · exact Except.noConfusion hc
      · exact CabErr.noConfusion (Except.error.inj hc)
  · intro lo hi tag hb hlen
    rw [check_arg_in_bounds_eval m arg val lo hi tag hb hlen]
    refine ⟨_, rfl, ?_⟩
    split
    · omega
    · split
      · omega
      · split
        · omega
        · split <;> omega

/-- Witness for the amended C7: an absent key raises `UnknownArgument`, and
the known key `"a"` with bounds `(0, 1)` (tag defaulted to `"cc"`) returns a
case `≤ 4`. -/
theorem check_arg_in_bounds_c7_amended_witness :
    (check_arg_in_bounds ⟨[("a", (0, 1, none))]⟩ "b" 0).1 =
      .error (.unknownArgument "b") ∧
    ∃ r : ℕ, (check_arg_in_bounds ⟨[("a", (0, 1, none))]⟩ "a" 0).1 = .ok r ∧
      r ≤ 4 :=
  ⟨(check_arg_in_bounds_c7_amended ⟨[("a", (0, 1, none))]⟩ "b" 0).1.mpr rfl,
   (check_arg_in_bounds_c7_amended ⟨[("a", (0, 1, none))]⟩ "a" 0).2 0 1 none
     rfl (by decide)⟩

/-- C10: the call leaves the model untouched — `list(model.arg_bounds[arg])`
copies the stored pair before the default tag is appended, so the bound
mapping is identical before and after the call. -/
theorem check_arg_in_bounds_c10 (m : PyModel) (arg : String) (val lo hi : ℚ)
    (hb : m.arg_bounds.lookup arg = some (lo, hi, none)) :
    (check_arg_in_bounds m arg val).2.arg_bounds = m.arg_bounds := by
  rw [check_arg_in_bounds_some m arg val lo hi none hb]

/-- Witness for C10 at a concrete model with a two-element bound tuple. -/
theorem check_arg_in_bounds_c10_witness :
    (check_arg_in_bounds ⟨[("a", (0, 1, none))]⟩ "a" 5).2.arg_bounds =
      (PyModel.mk [("a", (0, 1, none))]).arg_bounds :=
  check_arg_in_bounds_c10 ⟨[("a", (0, 1, none))]⟩ "a" 5 0 1 rfl

/-! ## `default_arg_from_bounds` -/

/-- An IEEE-754 double restricted to what `default_arg_from_bounds`
distinguishes: the two infinities, `NaN`, and finite values (modelled by
`ℚ`). -/
inductive PFloat where
  | ninf
  | pinf
  | nan
  | fin (q : ℚ)
deriving DecidableEq

/-- Python `x > -np.inf`: false exactly for `-inf` and `NaN`. -/
def PFloat.gtNinf : PFloat → Bool
  | .ninf => false
  | .nan => false
  | _ => true

/-- Python `x < np.inf`: false exactly for `+inf` and `NaN`. -/
def PFloat.ltPinf : PFloat → Bool
  | .pinf => false
  | .nan => false
  | _ => true

/-- IEEE addition on the modelled values (`inf + (-inf) = NaN`). -/
def PFloat.add : PFloat → PFloat → PFloat
  | .nan, _ => .nan
  | _, .nan => .nan
  | .pinf, .ninf => .nan
  | .ninf, .pinf => .nan
  | .pinf, _ => .pinf
  | _, .pinf => .pinf
  | .ninf, _ => .ninf
  | _, .ninf => .ninf
  | .fin a, .fin b => .fin (a + b)

/-- IEEE subtraction on the modelled values (`inf - inf = NaN`). -/
def PFloat.sub : PFloat → PFloat → PFloat
  | .nan, _ => .nan
  | _, .nan => .nan
  | .pinf, .pinf => .nan
  | .ninf, .ninf => .nan
  | .pinf, _ => .pinf
  | _, .pinf => .ninf
  | .ninf, _ => .ninf
  | _, .ninf => .pinf
  | .fin a, .fin b => .fin (a - b)

/-- IEEE halving. -/
def PFloat.div2 : PFloat → PFloat
  | .nan => .nan
  | .pinf => .pinf
  | .ninf => .ninf
  | .fin a => .fin (a / 2)

/-- `default_arg_from_bounds(bounds)` from `gstools/covmodel/tools.py`:
`if bounds[0] > -np.inf and bounds[1] < np.inf: return (bounds[0] +
bounds[1]) / 2.0`; `if bounds[0] > -np.inf: return bounds[0] + 1.0`;
`if bounds[1] < np.inf: return bounds[1] - 1.0`; `return 0.0`. -/
def default_arg_from_bounds (bounds : PFloat × PFloat) : PFloat :=
  if bounds.1.gtNinf && bounds.2.ltPinf then (bounds.1.add bounds.2).div2
  else if bounds.1.gtNinf then bounds.1.add (.fin 1)
  else if bounds.2.ltPinf then bounds.2.sub (.fin 1)
  else .fin 0

/-- C9 counterexample: for bounds `(inf, 10)` the lower endpoint is not
finite and the upper is, so the claim demands `upper - 1.0 = 9.0`; but the
code's lower test is `lower > -inf`, which `+inf` passes, so the midpoint
branch runs and returns `(inf + 10)/2 = inf`. -/
theorem default_arg_from_bounds_c9_counterexample :
    default_arg_from_bounds (.pinf, .fin 10) = .pinf ∧
    default_arg_from_bounds (.pinf, .fin 10) ≠ .fin 9 := by
  refine ⟨by decide, by decide⟩

/-- C9 (amended): the two finiteness tests are one-sided — the lower test is
`lower > -inf` (which `+inf` passes) and the upper test is `upper < inf`
(which `-inf` passes).  With that reading of "finite", the policy holds:
both tests pass → IEEE midpoint `(lower + upper)/2`; only the lower test →
`lower + 1.0`; only the upper test → `upper - 1.0`; neither → `0.0`; for
genuinely finite endpoints this gives the claimed midpoint/offset values,
and no validation of `lower < upper` is performed. -/
theorem default_arg_from_bounds_c9_amended :
    (∀ lo hi : PFloat, lo.gtNinf = true → hi.ltPinf = true →
      default_arg_from_bounds (lo, hi) = (lo.add hi).div2) ∧
    (∀ lo hi : PFloat, lo.gtNinf = true → hi.ltPinf = false →
      default_arg_from_bounds (lo, hi) = lo.add (.fin 1)) ∧
    (∀ lo hi : PFloat, lo.gtNinf = false → hi.ltPinf = true →
      default_arg_from_bounds (lo, hi) = hi.sub (.fin 1)) ∧
    (∀ lo hi : PFloat, lo.gtNinf = false → hi.ltPinf = false →
      default_arg_from_bounds (lo, hi) = .fin 0) ∧
    (∀ a b : ℚ, default_arg_from_bounds (.fin a, .fin b) = .fin ((a + b) / 2)) ∧
    (∀ a : ℚ, default_arg_from_bounds (.fin a, .pinf) = .fin (a + 1)) ∧
    (∀ b : ℚ, default_arg_from_bounds (.ninf, .fin b) = .fin (b - 1)) ∧
    (default_arg_from_bounds (.ninf, .pinf) = .fin 0) ∧
    (∀ b : ℚ, default_arg_from_bounds (.pinf, .fin b) = .pinf) := by
  refine ⟨fun lo hi h1 h2 => ?_, fun lo hi h1 h2 => ?_, fun lo hi h1 h2 => ?_,
    fun lo hi h1 h2 => ?_, fun a b => rfl, fun a => rfl, fun b => rfl, rfl,
    fun b => rfl⟩ <;>
    simp [default_arg_from_bounds, h1, h2]

/-- Witness for the amended C9 at the spec's examples (plus a reversed pair,
showing no `lower < upper` validation). -/
theorem default_arg_from_bounds_c9_amended_witness :
    default_arg_from_bounds (.fin 0, .fin 10) = .fin 5 ∧
    default_arg_from_bounds (.fin 0, .pinf) = .fin 1 ∧
    default_arg_from_bounds (.ninf, .fin 10) = .fin 9 ∧
    default_arg_from_bounds (.ninf, .pinf) = .fin 0 ∧
    default_arg_from_bounds (.fin 10, .fin 0) = .fin 5 := by
  have h := default_arg_from_bounds_c9_amended
  refine ⟨?_, ?_, ?_, h.2.2.2.2.2.2.2.1, ?_⟩
  · rw [h.2.2.2.2.1 0 10]; norm_num
  · rw [h.2.2.2.2.2.1 0]; norm_num
  · rw [h.2.2.2.2.2.2.1 10]; norm_num
  · rw [h.2.2.2.2.1 10 0]; norm_num

/-! ## `rad_fac` -/

/-- A NumPy-level result: a Python float scalar or an array (a list of
radii-indexed values). -/
inductive NpVal where
  | scalar (x : ℝ)
  | arr (xs : List ℝ)

/-- `rad_fac(dim, r)` from `gstools/covmodel/tools.py`: for `dim == 1` the
Python float `2.0` (a scalar, not an array of `r`'s shape); for `dim == 2`
`2*np.pi*r` elementwise; for `dim == 3` `4*np.pi*r**2` elementwise;
otherwise `dim * r**(dim-1) * np.sqrt(np.pi)**dim / sps.gamma(dim/2 + 1)`
elementwise. -/
noncomputable def rad_fac (dim : ℕ) (r : List ℝ) : NpVal :=
  if dim = 1 then .scalar 2
  else if dim = 2 then .arr (r.map fun x => 2 * Real.pi * x)
  else if dim = 3 then .arr (r.map fun x => 4 * Real.pi * x ^ 2)
  else .arr (r.map fun x =>
    (dim : ℝ) * x ^ ((dim : ℤ) - 1) * Real.sqrt Real.pi ^ dim /
      Real.Gamma ((dim : ℝ) / 2 + 1))

/-- `sqrt(pi)^n = pi^(n/2)`. -/
theorem sqrt_pi_pow (n : ℕ) :
    Real.sqrt Real.pi ^ n = Real.pi ^ ((n : ℝ) / 2) := by
  rw [Real.sqrt_eq_rpow, ← Real.rpow_natCast (Real.pi ^ ((1 : ℝ) / 2)) n,
    ← Real.rpow_mul Real.pi_nonneg]
  congr 1
  ring

/-- C8 counterexample: `rad_fac(1, r)` returns the scalar `2.0`, not an
array of `r`'s shape holding `2.0`. -/
theorem rad_fac_c8_counterexample :
    rad_fac 1 [(0 : ℝ)] = NpVal.scalar 2 ∧
    rad_fac 1 [(0 : ℝ)] ≠ NpVal.arr [2] := by
  refine ⟨rfl, fun h => ?_⟩
  rw [show rad_fac 1 [(0 : ℝ)] = NpVal.scalar 2 from rfl] at h
  exact NpVal.noConfusion h

/-- C8 (amended): `rad_fac` returns the scalar `2.0` for `dim = 1` (which
broadcasts against `r` in later arithmetic), and for `dim ≥ 2` an array of
`r`'s shape with values `2πr`, `4πr²`, and for `dim ≥ 4`
`dim · r^(dim-1) · π^(dim/2) / Γ(dim/2 + 1)` elementwise. -/
theorem rad_fac_c8_amended :
    (∀ r : List ℝ, rad_fac 1 r = .scalar 2) ∧
    (∀ r : List ℝ, rad_fac 2 r = .arr (r.map fun x => 2 * Real.pi * x)) ∧
    (∀ r : List ℝ, rad_fac 3 r = .arr (r.map fun x => 4 * Real.pi * x ^ 2)) ∧
    (∀ (k : ℕ) (r : List ℝ), rad_fac (k + 4) r = .arr (r.map fun x =>
      ((k + 4 : ℕ) : ℝ) * x ^ (k + 3) * Real.pi ^ (((k + 4 : ℕ) : ℝ) / 2) /
        Real.Gamma (((k + 4 : ℕ) : ℝ) / 2 + 1))) := by
  refine ⟨fun r => rfl, fun r => rfl, fun r => rfl, fun k r => ?_⟩
  unfold rad_fac
  rw [if_neg (by omega), if_neg (by omega), if_neg (by omega)]
  have hfun : ∀ x : ℝ,
      ((k + 4 : ℕ) : ℝ) * x ^ (((k + 4 : ℕ) : ℤ) - 1) *
        Real.sqrt Real.pi ^ (k + 4) / Real.Gamma (((k + 4 : ℕ) : ℝ) / 2 + 1) =
      ((k + 4 : ℕ) : ℝ) * x ^ (k + 3) * Real.pi ^ (((k + 4 : ℕ) : ℝ) / 2) /
        Real.Gamma (((k + 4 : ℕ) : ℝ) / 2 + 1) := by
    intro x
    rw [sqrt_pi_pow (k + 4),
      show (((k + 4 : ℕ)) : ℤ) - 1 = ((k + 3 : ℕ) : ℤ) by push_cast; ring,
      zpow_natCast]
  simp only [hfun]

end GSTools
